import Mathlib

/-!
Verification development for the `flashy` Obsidian plugin (src/main.ts).

The parser (`parseAllCards`) and the session state machine (`initializeDeck`,
`renderCard`, `onGraded`, `fisherYatesShuffle`) are shallowly embedded below.
Strings are modelled through their character lists; all JavaScript string
operations used by the source are reimplemented as structurally recursive,
executable Lean functions so that every definition evaluates on concrete
inputs.
-/

namespace Flashy

/-! ## JavaScript string primitives -/

/-- Whitespace characters recognised by JavaScript `trim` / `\s`
(restricted to the ASCII range used by the plugin's inputs). -/
def isWsChar (c : Char) : Bool :=
  c = ' ' || c = '\t' || c = '\n' || c = '\r' || c = '\x0b' || c = '\x0c'

def trimChars (cs : List Char) : List Char :=
  ((cs.dropWhile isWsChar).reverse.dropWhile isWsChar).reverse

/-- JavaScript `String.prototype.trim`. -/
def jsTrim (s : String) : String := String.mk (trimChars s.data)

/-- JavaScript `String.prototype.startsWith`. -/
def strStartsWith (s pat : String) : Bool := pat.data.isPrefixOf s.data

/-- JavaScript `String.prototype.endsWith`. -/
def strEndsWith (s pat : String) : Bool := pat.data.isSuffixOf s.data

/-- Drop the first `n` characters (JavaScript `substring(n)`). -/
def strDrop (s : String) (n : Nat) : String := String.mk (s.data.drop n)

/-- Drop the last `n` characters (with `strDrop`, JavaScript `slice(1, -1)`). -/
def strDropRight (s : String) (n : Nat) : String :=
  String.mk (s.data.take (s.data.length - n))

/-- Split off the segment before the first occurrence of `sep`, returning it
together with the remainder after `sep`; `none` when `sep` does not occur. -/
def splitFirst (sep : List Char) : List Char → Option (List Char × List Char)
  | [] => none
  | c :: rest =>
    if sep.isPrefixOf (c :: rest) then some ([], (c :: rest).drop sep.length)
    else
      match splitFirst sep rest with
      | some (seg, post) => some (c :: seg, post)
      | none => none

/-- Fuelled splitting on a separator; with fuel `cs.length` this computes
JavaScript `String.prototype.split` for a non-empty literal separator. -/
def splitOnFuel (sep : List Char) : Nat → List Char → List (List Char)
  | 0, cs => [cs]
  | fuel + 1, cs =>
    match splitFirst sep cs with
    | none => [cs]
    | some (seg, post) => seg :: splitOnFuel sep fuel post

/-- JavaScript `split` on a non-empty literal separator. -/
def splitOnL (sep cs : List Char) : List (List Char) := splitOnFuel sep cs.length cs

def splitWsAux : List Char → List Char → List (List Char)
  | [], acc => [acc.reverse]
  | c :: rest, acc =>
    if isWsChar c then acc.reverse :: splitWsAux rest []
    else splitWsAux rest (c :: acc)

/-- JavaScript `split(/\s+/)` as used on already-trimmed input: whitespace
runs separate the fragments.  (On the degenerate empty input JavaScript
returns `[""]` and this returns `[]`; both yield no `key=value` tokens.) -/
def splitWs (cs : List Char) : List (List Char) :=
  (splitWsAux cs []).filter (fun w => w ≠ [])

def intercalateNL : List String → List Char
  | [] => []
  | [s] => s.data
  | s :: rest => s.data ++ '\n' :: intercalateNL rest

/-- JavaScript `Array.prototype.join('\n')`. -/
def joinNL (ls : List String) : String := String.mk (intercalateNL ls)

/-- JavaScript `Array.prototype.findIndex` (with `-1` rendered as `none`). -/
def jsFindIndex {α : Type} (p : α → Bool) : List α → Option Nat
  | [] => none
  | a :: rest => if p a then some 0 else (jsFindIndex p rest).map (fun k => k + 1)

/-- Index of the first occurrence of `pat` as a contiguous sublist of `cs`. -/
def firstSubIdx (pat cs : List Char) : Option Nat :=
  ((List.range (cs.length + 1)).filter (fun i => pat.isPrefixOf (cs.drop i))).head?

/-! ## Data model (src/main.ts interfaces) -/

/-- One entry of `MultipleChoiceCard.answers`. -/
structure Choice where
  text : String
  isCorrect : Bool
deriving DecidableEq, Repr

/-- The three card variants (`MultipleChoiceCard`, `FillInTheBlankCard`,
`QACard`) without the shared styling fields. -/
inductive CardData where
  | multipleChoice (question : String) (answers : List Choice)
  | fillInTheBlank (question : String) (questionPartTwo : Option String) (answer : String)
  | qa (question : String) (answer : String)
deriving DecidableEq, Repr

/-- A `Flashcard` as produced by `parseAllCards`: variant data plus the
optional `customBackgroundColor` / `customTextColor` styling fields. -/
structure Flashcard where
  data : CardData
  customBackgroundColor : Option String
  customTextColor : Option String
deriving DecidableEq, Repr

/-- A `{ bg?: string; color?: string }` property record. -/
structure Props where
  bg : Option String := none
  color : Option String := none
deriving DecidableEq, Repr

/-- JavaScript `a || b` for string-or-undefined values. -/
def jsOr (a b : Option String) : Option String :=
  match a with
  | some v => if v = "" then b else some v
  | none => b

/-- One iteration of the `props.forEach` body: split a token on `=` and
record `bg` / `color` keys with non-empty (truthy) values. -/
def applyProp (ps : Props) (p : String) : Props :=
  match (splitOnL ['='] p.data).map String.mk with
  | key :: value :: _ =>
    let ps1 := if key = "bg" ∧ value ≠ "" then { ps with bg := some value } else ps
    if key = "color" ∧ value ≠ "" then { ps1 with color := some value } else ps1
  | _ => ps

/-- `propLine.trim().split(/\s+/)` followed by the `forEach` accumulation. -/
def parsePropLine (propLine : String) : Props :=
  (((splitWs (jsTrim propLine).data)).map String.mk).foldl applyProp {}

/-! ## Card grammar resolver (`parseAllCards` internals) -/

def lbrace : Char := '\x7b'
def rbrace : Char := '\x7d'

def openBracePat : List Char := [lbrace, lbrace]
def closeBracePat : List Char := [rbrace, rbrace]

def openBraceAt (cs : List Char) (i : Nat) : Bool := openBracePat.isPrefixOf (cs.drop i)
def closeBraceAt (cs : List Char) (j : Nat) : Bool := closeBracePat.isPrefixOf (cs.drop j)

def fitbOpens (cs : List Char) : List Nat :=
  (List.range cs.length).filter (fun i => openBraceAt cs i)

def fitbCloses (cs : List Char) : List Nat :=
  (List.range cs.length).filter (fun j => closeBraceAt cs j)

/-- The JavaScript regular-expression match
`questionLine.match(/(.*){\x7b(.*)\x7d}(.*)/)` (both brace pairs doubled in
the source).  All three groups are greedy, so backtracking selects the last
opening brace pair that is still followed by a closing pair, and then the
last closing pair after it; the three returned strings are groups 1-3. -/
def fitbMatch (line : String) : Option (String × String × String) :=
  match ((fitbOpens line.data).filter
      (fun i => (fitbCloses line.data).any (fun j => decide (i + 2 ≤ j)))).getLast? with
  | none => none
  | some i =>
    match ((fitbCloses line.data).filter (fun j => decide (i + 2 ≤ j))).getLast? with
    | none => none
    | some j =>
      some (String.mk (line.data.take i),
        String.mk ((line.data.drop (i + 2)).take (j - (i + 2))),
        String.mk (line.data.drop (j + 2)))

/-- `line.trim().startsWith('===')`. -/
def qaSepLine (line : String) : Bool := strStartsWith (jsTrim line) "==="

/-- The `answers` array built by the multiple-choice branch: each line
after the question becomes a choice, `=`-prefixed lines marked correct. -/
def mcAnswers (lines : List String) : List Choice :=
  (lines.drop 1).map (fun line =>
    { text :=
        if strStartsWith (jsTrim line) "=" then jsTrim (strDrop (jsTrim line) 1)
        else jsTrim line,
      isCorrect := strStartsWith (jsTrim line) "=" })

/-- The multiple-choice branch of the grammar resolver
(`else if (lines.length > 1) { ... }`). -/
def mcAttempt (lines : List String) (questionLine : String) : Option CardData :=
  if 1 < lines.length then
    if (mcAnswers lines).any (fun a => a.isCorrect) then
      some (CardData.multipleChoice (jsTrim questionLine) (mcAnswers lines))
    else none
  else none

/-- The grammar resolver for the non-blank lines of one block: QA when a
`===` line exists, otherwise fill-in-the-blank on the first line, otherwise
multiple choice. -/
def parseBlockCard (lines : List String) : Option CardData :=
  match jsFindIndex qaSepLine lines with
  | some qaSeparatorIndex =>
    if jsTrim (joinNL (lines.take qaSeparatorIndex)) ≠ "" ∧
        jsTrim (strDrop (jsTrim (lines.getD qaSeparatorIndex "")) 3) ≠ "" then
      some (CardData.qa (jsTrim (joinNL (lines.take qaSeparatorIndex)))
        (jsTrim (strDrop (jsTrim (lines.getD qaSeparatorIndex "")) 3)))
    else none
  | none =>
    match fitbMatch (lines.headD "") with
    | some (q1, answer, q2) =>
      if answer ≠ "" then
        some (CardData.fillInTheBlank (jsTrim q1)
          (if jsTrim q2 = "" then none else some (jsTrim q2))
          (jsTrim answer))
      else mcAttempt lines (lines.headD "")
    | none => mcAttempt lines (lines.headD "")

/-- `block.trim().split('\n').filter(line => line.trim().length > 0)`. -/
def blockLines (block : String) : List String :=
  ((splitOnL ['\n'] (jsTrim block).data).map String.mk).filter
    (fun line => 0 < (jsTrim line).length)

/-- Strip an optional leading `[...]` card-scope property line, returning the
parsed card properties and the remaining lines. -/
def stripCardProps (lines0 : List String) : Props × List String :=
  match lines0 with
  | [] => ({}, [])
  | l0 :: rest =>
    if strStartsWith l0 "[" && strEndsWith l0 "]" then
      ((if strDropRight (strDrop l0 1) 1 ≠ "" then parsePropLine (strDropRight (strDrop l0 1) 1)
        else {}), rest)
    else ({}, lines0)

/-- Attach the resolved styling (`cardProperties.bg || globalProperties.bg`,
likewise for `color`) to a parsed card. -/
def attachColors (cardProperties globalProperties : Props) (d : CardData) : Flashcard :=
  { data := d,
    customBackgroundColor := jsOr cardProperties.bg globalProperties.bg,
    customTextColor := jsOr cardProperties.color globalProperties.color }

/-- The body of the `cardBlocks.map` callback in `parseAllCards` (with the
trailing `filter(card => card !== null)` folded into the `Option`). -/
def parseBlock (globalProperties : Props) (block : String) : Option Flashcard :=
  if blockLines block = [] then none
  else if (stripCardProps (blockLines block)).2 = [] then none
  else
    Option.map (attachColors (stripCardProps (blockLines block)).1 globalProperties)
      (parseBlockCard (stripCardProps (blockLines block)).2)

def dblCloseSq : List Char := [']', ']']

/-- `content.match(/^\[\[(.*?)]]\n?/)`: when `content` starts with `[[`, the
lazy group captures up to the first `]]`, cannot cross a newline, and an
optional newline is consumed; returns the capture and the matched length. -/
def globalMatch (content : String) : Option (String × Nat) :=
  if strStartsWith content "[[" then
    let rest := content.data.drop 2
    match firstSubIdx dblCloseSq rest with
    | some i =>
      if (rest.take i).all (fun c => c ≠ '\n') then
        let extra :=
          match (rest.drop (i + 2)).head? with
          | some c => if c = '\n' then 1 else 0
          | none => 0
        some (String.mk (rest.take i), 2 + i + 2 + extra)
      else none
    | none => none
  else none

/-- The block-scope (`[[...]]`) properties of the whole source. -/
def globalPropsOf (source : String) : Props :=
  match globalMatch (jsTrim source) with
  | some (inner, _) => parsePropLine inner
  | none => {}

/-- The source after trimming and removing a matched `[[...]]` line. -/
def strippedContent (source : String) : String :=
  match globalMatch (jsTrim source) with
  | some (_, len) => strDrop (jsTrim source) len
  | none => jsTrim source

/-- `content.split(/\n---\n/)`. -/
def cardBlocksOf (source : String) : List String :=
  (splitOnL ('\n' :: '-' :: '-' :: '-' :: ['\n']) (strippedContent source).data).map String.mk

/-- The full parser `parseAllCards` from src/main.ts. -/
def parseAllCards (source : String) : List Flashcard :=
  (cardBlocksOf source).filterMap (fun block => parseBlock (globalPropsOf source) block)

/-! ## Session state machine -/

/-- The settings fields consumed by the code-block processor's session logic. -/
structure FlashyPluginSettings where
  shuffleCards : Bool
  shuffleAnswers : Bool
  autoAdvance : Bool
  autoAdvanceIncorrect : Bool
  autoAdvanceDelay : Nat
deriving DecidableEq, Repr

/-- The `stats` record of a session. -/
structure Stats where
  correct : Nat
  incorrect : Nat
  answered : Nat
deriving DecidableEq, Repr

/-- The mutable closure state of one rendered flashy block:
`currentCardIndex`, `stats`, `answeredCardIndexes` (a JavaScript `Set`,
modelled as its insertion-ordered element list) and `cardsToRender`.
The card type is a parameter so the session theorems apply to any deck;
element equality models JavaScript reference equality of the card objects. -/
structure DeckState (α : Type) where
  currentCardIndex : Int
  stats : Stats
  answeredCardIndexes : List Int
  cardsToRender : List α
deriving DecidableEq, Repr

/-- Swap two positions of a list (the destructuring swap in the shuffle). -/
def listSwap {α : Type} (l : List α) (i j : Nat) : List α :=
  match l.get? i, l.get? j with
  | some a, some b => (l.set i b).set j a
  | _, _ => l

/-- The `for (let i = arr.length - 1; i > 0; i--)` loop of the shuffle;
`rand step % (i + 1)` models `Math.floor(Math.random() * (i + 1))`. -/
def fyAux {α : Type} (rand : Nat → Nat) : Nat → List α → Nat → List α
  | _, arr, 0 => arr
  | step, arr, i + 1 => fyAux rand (step + 1) (listSwap arr (i + 1) (rand step % (i + 2))) i

/-- `fisherYatesShuffle`: shuffle a copy of the array, driven by the random
stream `rand`. -/
def fisherYatesShuffle {α : Type} (rand : Nat → Nat) (array : List α) : List α :=
  fyAux rand 0 array (array.length - 1)

/-- The `do { cardsToRender = fisherYatesShuffle(allCards); } while
(previousFirstCard !== undefined && cardsToRender[0] === previousFirstCard)`
loop, with explicit fuel (`none` when the fuel runs out before the guard is
passed) and a running offset `t` into the random stream. -/
def reshuffleLoop {α : Type} [DecidableEq α] (rand : Nat → Nat) (allCards : List α)
    (previousFirstCard : Option α) (fuel t : Nat) : Option (List α) :=
  match fuel with
  | 0 => none
  | fuel' + 1 =>
    let shuffled := fisherYatesShuffle (fun k => rand (t + k)) allCards
    if previousFirstCard ≠ none ∧ shuffled.head? = previousFirstCard then
      reshuffleLoop rand allCards previousFirstCard fuel' (t + (allCards.length - 1))
    else some shuffled

/-- `initializeDeck`: reset stats and the answered set, re-derive
`cardsToRender` (re-shuffling while the first card repeats when card
shuffling is enabled and the deck has more than one card), and return to
index 0.  `prevCardsToRender` is the render order in effect before the
reset (`none` on the very first initialization). -/
def initializeDeck {α : Type} [DecidableEq α] (settings : FlashyPluginSettings)
    (rand : Nat → Nat) (fuel : Nat) (allCards : List α)
    (prevCardsToRender : Option (List α)) : Option (DeckState α) :=
  Option.map
    (fun cards =>
      { currentCardIndex := 0, stats := ⟨0, 0, 0⟩, answeredCardIndexes := [],
        cardsToRender := cards })
    (if settings.shuffleCards = true ∧ 1 < allCards.length then
      reshuffleLoop rand allCards (prevCardsToRender.bind List.head?) fuel 0
    else some allCards)

/-- `renderCard(index)`: store the index, then look the card up
(`cardsToRender[index]`), returning early with nothing rendered when the
lookup is `undefined`.  The second component is the card handed to the
renderer (`none` when the early return fires). -/
def renderCard {α : Type} (st : DeckState α) (index : Int) : DeckState α × Option α :=
  let st' := { st with currentCardIndex := index }
  let cardData := if index < 0 then none else st'.cardsToRender.get? index.toNat
  (st', cardData)

/-- `onGraded(isCorrect)`: a no-op when the current index was already
answered, otherwise record the index and update the stats.  (The scheduled
auto-advance and summary timers act later through `renderCard` and are not
part of the synchronous state change.) -/
def onGraded {α : Type} (st : DeckState α) (isCorrect : Bool) : DeckState α :=
  if st.currentCardIndex ∈ st.answeredCardIndexes then st
  else
    { st with
      answeredCardIndexes := st.answeredCardIndexes ++ [st.currentCardIndex],
      stats :=
        { correct := st.stats.correct + (if isCorrect then 1 else 0),
          incorrect := st.stats.incorrect + (if isCorrect then 0 else 1),
          answered := st.stats.answered + 1 } }

/-! ## Theorems -/

/-- Claim C10 (confirmed): an answer line that is exactly `=` yields a
choice with empty text marked correct, and such a line alone lets the
multiple-choice card be accepted. -/
theorem mc_empty_correct_choice_accepted :
    parseAllCards "Q\n=" =
      [{ data := CardData.multipleChoice "Q" [{ text := "", isCorrect := true }],
         customBackgroundColor := none, customTextColor := none }] := by
  decide

/-- Claim C5 (confirmed): grading is idempotent per position.  If the
current position is already in the answered set, `onGraded` changes
nothing; and a second grading right after a first one (with any outcome)
changes nothing either, so the stats change exactly once per position. -/
theorem onGraded_idempotent {α : Type} (st : DeckState α) (b b' : Bool) :
    (st.currentCardIndex ∈ st.answeredCardIndexes → onGraded st b = st) ∧
    onGraded (onGraded st b) b' = onGraded st b := by
  have hbase : ∀ (s : DeckState α) (c : Bool),
      s.currentCardIndex ∈ s.answeredCardIndexes → onGraded s c = s := by
    intro s c h
    unfold onGraded
    rw [if_pos h]
  refine ⟨hbase st b, ?_⟩
  by_cases h : st.currentCardIndex ∈ st.answeredCardIndexes
  · rw [hbase st b h, hbase st b' h]
  · apply hbase
    unfold onGraded
    rw [if_neg h]
    simp

/-- Witness for C5 at a concrete state whose current position is already
answered. -/
theorem onGraded_idempotent_witness :
    ((⟨0, ⟨1, 0, 1⟩, [0], [5]⟩ : DeckState Nat).currentCardIndex ∈
        (⟨0, ⟨1, 0, 1⟩, [0], [5]⟩ : DeckState Nat).answeredCardIndexes) ∧
    onGraded (⟨0, ⟨1, 0, 1⟩, [0], [5]⟩ : DeckState Nat) true =
      (⟨0, ⟨1, 0, 1⟩, [0], [5]⟩ : DeckState Nat) :=
  ⟨by decide,
    (onGraded_idempotent (⟨0, ⟨1, 0, 1⟩, [0], [5]⟩ : DeckState Nat) true true).1 (by decide)⟩

/-- Claim C3 counterexample: on a one-card deck, `renderCard 5` (the
`goTo` operation) is not a no-op — it overwrites the session position with
the out-of-range index. -/
theorem goTo_out_of_range_moves_position :
    (renderCard (⟨0, ⟨0, 0, 0⟩, [], [7]⟩ : DeckState Nat) 5).1.currentCardIndex = 5 ∧
    ((renderCard (⟨0, ⟨0, 0, 0⟩, [], [7]⟩ : DeckState Nat) 5).1 =
        (⟨0, ⟨0, 0, 0⟩, [], [7]⟩ : DeckState Nat) → False) := by
  decide

/-- Claim C3 (amended): for every index outside `0 ≤ index < length`,
`goTo` renders no card and leaves the answered set and the stats exactly as
they were, but it overwrites the session position with the out-of-range
index. -/
theorem goTo_out_of_range_behavior {α : Type} (st : DeckState α) (index : Int)
    (h : index < 0 ∨ (st.cardsToRender.length : Int) ≤ index) :
    (renderCard st index).2 = none ∧
    (renderCard st index).1.stats = st.stats ∧
    (renderCard st index).1.answeredCardIndexes = st.answeredCardIndexes ∧
    (renderCard st index).1.currentCardIndex = index := by
  refine ⟨?_, rfl, rfl, rfl⟩
  unfold renderCard
  by_cases hneg : index < 0
  · simp [hneg]
  · rcases h with h | h
    · exact absurd h hneg
    · simp only [hneg, if_false]
      exact List.get?_eq_none.mpr (by omega)

/-- Witness for the amended C3 at a concrete out-of-range call. -/
theorem goTo_out_of_range_behavior_witness :
    ((5 : Int) < 0 ∨
        (((⟨0, ⟨0, 0, 0⟩, [], [7]⟩ : DeckState Nat).cardsToRender.length : Int) ≤ 5)) ∧
    ((renderCard (⟨0, ⟨0, 0, 0⟩, [], [7]⟩ : DeckState Nat) 5).2 = none ∧
      (renderCard (⟨0, ⟨0, 0, 0⟩, [], [7]⟩ : DeckState Nat) 5).1.stats =
        (⟨0, ⟨0, 0, 0⟩, [], [7]⟩ : DeckState Nat).stats ∧
      (renderCard (⟨0, ⟨0, 0, 0⟩, [], [7]⟩ : DeckState Nat) 5).1.answeredCardIndexes =
        (⟨0, ⟨0, 0, 0⟩, [], [7]⟩ : DeckState Nat).answeredCardIndexes ∧
      (renderCard (⟨0, ⟨0, 0, 0⟩, [], [7]⟩ : DeckState Nat) 5).1.currentCardIndex = 5) :=
  ⟨by decide, goTo_out_of_range_behavior (⟨0, ⟨0, 0, 0⟩, [], [7]⟩ : DeckState Nat) 5 (by decide)⟩

/-- Claim C8 (confirmed): the parser is a total function — every source
string, empty or garbage, yields a list of cards, and each block
contributes at most one card (a block matching no grammar is dropped and
cannot fail). -/
theorem parseAllCards_total_le_blocks (source : String) :
    (parseAllCards source).length ≤ (cardBlocksOf source).length := by
  unfold parseAllCards
  exact List.length_filterMap_le _ _

/-- The reshuffle loop only exits through its guard, so whenever it returns
a render order and a previous first card existed, the new first card
differs from it. -/
lemma reshuffleLoop_head_ne {α : Type} [DecidableEq α] (rand : Nat → Nat)
    (allCards : List α) (c : α) :
    ∀ (fuel t : Nat) (res : List α),
      reshuffleLoop rand allCards (some c) fuel t = some res → res.head? ≠ some c := by
  intro fuel
  induction fuel with
  | zero =>
    intro t res h
    simp [reshuffleLoop] at h
  | succ n ih =>
    intro t res h
    rw [reshuffleLoop] at h
    split at h
    · exact ih _ res h
    · next hguard =>
      cases h
      intro hcontra
      exact hguard ⟨by simp, hcontra⟩

/-- Claim C7 (confirmed): after a reset with card shuffling enabled on a
deck longer than one card, the first card of the new render order differs
from the first card of the render order in effect immediately before the
reset; hence repeated resets never repeat a first card twice in a row. -/
theorem reset_shuffle_first_card_differs {α : Type} [DecidableEq α]
    (settings : FlashyPluginSettings) (rand : Nat → Nat) (fuel : Nat)
    (allCards prev : List α) (c : α) (st : DeckState α)
    (hshuffle : settings.shuffleCards = true)
    (hlen : 1 < allCards.length)
    (hprev : prev.head? = some c)
    (hinit : initializeDeck settings rand fuel allCards (some prev) = some st) :
    st.cardsToRender.head? ≠ some c := by
  unfold initializeDeck at hinit
  rw [if_pos ⟨hshuffle, hlen⟩] at hinit
  rw [Option.map_eq_some'] at hinit
  obtain ⟨cards, hloop, hst⟩ := hinit
  simp only [Option.some_bind] at hloop
  rw [hprev] at hloop
  have hne := reshuffleLoop_head_ne rand allCards c fuel 0 cards hloop
  rw [← hst]
  exact hne

/-- Witness for C7: deck `[0, 1]`, previous order `[0, 1]`, a concrete
random stream; the reset produces first card `1 ≠ 0`. -/
theorem reset_shuffle_first_card_differs_witness :
    (({ shuffleCards := true, shuffleAnswers := true, autoAdvance := false,
        autoAdvanceIncorrect := false, autoAdvanceDelay := 1000 } :
          FlashyPluginSettings).shuffleCards = true) ∧
    (1 < ([0, 1] : List Nat).length) ∧
    (([0, 1] : List Nat).head? = some 0) ∧
    (initializeDeck
        ({ shuffleCards := true, shuffleAnswers := true, autoAdvance := false,
           autoAdvanceIncorrect := false, autoAdvanceDelay := 1000 } : FlashyPluginSettings)
        (fun _ => 0) 1 ([0, 1] : List Nat) (some [0, 1]) =
      some (⟨0, ⟨0, 0, 0⟩, [], [1, 0]⟩ : DeckState Nat)) ∧
    ((⟨0, ⟨0, 0, 0⟩, [], [1, 0]⟩ : DeckState Nat).cardsToRender.head? ≠ some 0) :=
  ⟨rfl, by decide, rfl, by decide,
    reset_shuffle_first_card_differs
      ({ shuffleCards := true, shuffleAnswers := true, autoAdvance := false,
         autoAdvanceIncorrect := false, autoAdvanceDelay := 1000 } : FlashyPluginSettings)
      (fun _ => 0) 1 [0, 1] [0, 1] 0 (⟨0, ⟨0, 0, 0⟩, [], [1, 0]⟩ : DeckState Nat)
      rfl (by decide) rfl (by decide)⟩

/-- Claim C6 (confirmed): as soon as some line of the block starts (after
trimming) with `===`, the resolver commits to the QA grammar: the only card
it can produce is the QA card built from the joined lines before the
separator and the remainder of the separator line, and if either part is
empty after trimming the whole block yields no card — the fill-in-blank and
multiple-choice grammars are never attempted. -/
theorem qa_separator_commits (lines : List String) (k : Nat)
    (hk : jsFindIndex qaSepLine lines = some k) :
    ((jsTrim (joinNL (lines.take k)) = "" ∨
        jsTrim (strDrop (jsTrim (lines.getD k "")) 3) = "") →
      parseBlockCard lines = none) ∧
    (∀ d, parseBlockCard lines = some d →
      d = CardData.qa (jsTrim (joinNL (lines.take k)))
            (jsTrim (strDrop (jsTrim (lines.getD k "")) 3))) := by
  constructor
  · intro hempty
    have hneg : ¬ (jsTrim (joinNL (lines.take k)) ≠ "" ∧
        jsTrim (strDrop (jsTrim (lines.getD k "")) 3) ≠ "") := by
      rintro ⟨h1, h2⟩
      rcases hempty with he | he
      · exact h1 he
      · exact h2 he
    simp only [parseBlockCard, hk]
    rw [if_neg hneg]
  · intro d hd
    simp only [parseBlockCard, hk] at hd
    split at hd
    · cases hd
      rfl
    · cases hd

/-- Witness for C6: the block `["===A"]` has a `===` line with an empty
question, so it is rejected. -/
theorem qa_separator_commits_witness :
    (jsFindIndex qaSepLine ["===A"] = some 0) ∧ parseBlockCard ["===A"] = none :=
  ⟨by decide, (qa_separator_commits ["===A"] 0 (by decide)).1 (Or.inl (by decide))⟩

/-- Property records produced by `parsePropLine` never hold an empty
string: the `forEach` body only stores truthy values. -/
lemma parsePropLine_wf (s : String) :
    (parsePropLine s).bg ≠ some "" ∧ (parsePropLine s).color ≠ some "" := by
  unfold parsePropLine
  generalize (splitWs (jsTrim s).data).map String.mk = toks
  have h : ∀ (l : List String) (ps : Props),
      ps.bg ≠ some "" ∧ ps.color ≠ some "" →
      (l.foldl applyProp ps).bg ≠ some "" ∧ (l.foldl applyProp ps).color ≠ some "" := by
    intro l
    induction l with
    | nil => intro ps hps; exact hps
    | cons p rest ih =>
      intro ps hps
      apply ih
      unfold applyProp
      split
      · next key value _ _ =>
        split <;> split <;>
          simp_all
      · exact hps
  exact h toks {} (by simp)

/-- The stripped card-scope properties of a block never hold an empty
string. -/
lemma stripCardProps_wf (lines0 : List String) :
    (stripCardProps lines0).1.bg ≠ some "" ∧ (stripCardProps lines0).1.color ≠ some "" := by
  cases lines0 with
  | nil => simp [stripCardProps]
  | cons l0 rest =>
    simp only [stripCardProps]
    split
    · dsimp only
      split
      · exact parsePropLine_wf _
      · simp
    · simp

/-- The resolution order demanded by the specification: the card-level
directive wins, otherwise the block-level directive, otherwise unset. -/
def specColorResolution (cardProp blockProp : Option String) : Option String :=
  match cardProp with
  | some v => some v
  | none => blockProp

/-- Claim C9 (confirmed): for every accepted card, the attached background
and text colors follow card-level precedence — the card-scope property
parsed from the block when present, else the block-scope property, else
unset.  (Parsed card-scope properties are never the empty string, so the
JavaScript `||` agrees with this resolution order.) -/
theorem card_color_resolution (globalProperties : Props) (block : String) (c : Flashcard)
    (h : parseBlock globalProperties block = some c) :
    c.customBackgroundColor =
      specColorResolution (stripCardProps (blockLines block)).1.bg globalProperties.bg ∧
    c.customTextColor =
      specColorResolution (stripCardProps (blockLines block)).1.color globalProperties.color := by
  unfold parseBlock at h
  split at h
  · cases h
  · split at h
    · cases h
    · rw [Option.map_eq_some'] at h
      obtain ⟨d, _, hc⟩ := h
      have hwf := stripCardProps_wf (blockLines block)
      rw [← hc]
      unfold attachColors jsOr specColorResolution
      constructor
      · cases hbg : (stripCardProps (blockLines block)).1.bg with
        | none => rfl
        | some v =>
          have hv : v ≠ "" := fun hveq => hwf.1 (by rw [hbg, hveq])
          dsimp only
          rw [if_neg hv]
      · cases hcol : (stripCardProps (blockLines block)).1.color with
        | none => rfl
        | some v =>
          have hv : v ≠ "" := fun hveq => hwf.2 (by rw [hcol, hveq])
          dsimp only
          rw [if_neg hv]

/-- Witness for C9: card property `bg=red` overrides the block-scope
`bg=blue`, while the text color falls back to the block scope. -/
theorem card_color_resolution_witness :
    (parseBlock (⟨some "blue", some "white"⟩ : Props) "[bg=red]\nQ\n=A" =
      some (⟨CardData.multipleChoice "Q" [⟨"A", true⟩], some "red", some "white"⟩ :
        Flashcard)) ∧
    ((⟨CardData.multipleChoice "Q" [⟨"A", true⟩], some "red", some "white"⟩ :
        Flashcard).customBackgroundColor =
      specColorResolution (stripCardProps (blockLines "[bg=red]\nQ\n=A")).1.bg
        (⟨some "blue", some "white"⟩ : Props).bg ∧
      (⟨CardData.multipleChoice "Q" [⟨"A", true⟩], some "red", some "white"⟩ :
        Flashcard).customTextColor =
      specColorResolution (stripCardProps (blockLines "[bg=red]\nQ\n=A")).1.color
        (⟨some "blue", some "white"⟩ : Props).color) :=
  ⟨by decide,
    card_color_resolution (⟨some "blue", some "white"⟩ : Props) "[bg=red]\nQ\n=A"
      (⟨CardData.multipleChoice "Q" [⟨"A", true⟩], some "red", some "white"⟩ : Flashcard)
      (by decide)⟩

/-- Every card of `parseAllCards` comes from `parseBlockCard` on the
stripped lines of some block. -/
lemma parseAllCards_mem_inv (c : Flashcard) (source : String)
    (h : c ∈ parseAllCards source) :
    ∃ lines, parseBlockCard lines = some c.data := by
  simp only [parseAllCards, List.mem_filterMap] at h
  obtain ⟨block, _, hb⟩ := h
  unfold parseBlock at hb
  split at hb
  · cases hb
  · split at hb
    · cases hb
    · rw [Option.map_eq_some'] at hb
      obtain ⟨d, hd, hc⟩ := hb
      refine ⟨(stripCardProps (blockLines block)).2, ?_⟩
      rw [hd, ← hc]
      rfl

/-- Any card produced by the multiple-choice branch carries a non-empty
answer list with some choice marked correct. -/
lemma mcAttempt_shape (lines : List String) (questionLine : String) (d : CardData)
    (h : mcAttempt lines questionLine = some d) :
    ∃ q ans, d = CardData.multipleChoice q ans ∧ 0 < ans.length ∧
      ans.any (fun a => a.isCorrect) = true := by
  unfold mcAttempt at h
  split at h
  · next hlen =>
    split at h
    · next hany =>
      cases h
      refine ⟨_, _, rfl, ?_, hany⟩
      unfold mcAnswers
      rw [List.length_map, List.length_drop]
      omega
    · cases h
  · cases h

/-- Multiple-choice cards only arise from the multiple-choice branch, so
they inherit its guards. -/
lemma parseBlockCard_mc_inv (lines : List String) (q : String) (ans : List Choice)
    (h : parseBlockCard lines = some (CardData.multipleChoice q ans)) :
    0 < ans.length ∧ ans.any (fun a => a.isCorrect) = true := by
  unfold parseBlockCard at h
  split at h
  · split at h
    · cases h
    · cases h
  · split at h
    · split at h
      · cases h
      · obtain ⟨q', ans', hd, hlen, hany⟩ := mcAttempt_shape _ _ _ h
        cases hd
        exact ⟨hlen, hany⟩
    · obtain ⟨q', ans', hd, hlen, hany⟩ := mcAttempt_shape _ _ _ h
      cases hd
      exact ⟨hlen, hany⟩

/-- Fill-in-the-blank cards only arise from the fill-in-the-blank branch:
their answer is the trim of the non-empty (truthy) regex capture. -/
lemma parseBlockCard_fitb_inv (lines : List String) (q : String) (p2 : Option String)
    (a : String) (h : parseBlockCard lines = some (CardData.fillInTheBlank q p2 a)) :
    ∃ raw, raw ≠ "" ∧ a = jsTrim raw := by
  unfold parseBlockCard at h
  split at h
  · split at h
    · cases h
    · cases h
  · split at h
    · next q1 a0 q2 heq =>
      split at h
      · next hne =>
        cases h
        exact ⟨a0, hne, rfl⟩
      · obtain ⟨q', ans', hd, _, _⟩ := mcAttempt_shape _ _ _ h
        cases hd
    · obtain ⟨q', ans', hd, _, _⟩ := mcAttempt_shape _ _ _ h
      cases hd

/-- Claim C1 counterexample: the block `Q` / `=A` is accepted and yields a
multiple-choice card with a single choice, so the parser does not require
two choices. -/
theorem mc_single_choice_card_exists :
    parseAllCards "Q\n=A" =
      [⟨CardData.multipleChoice "Q" [⟨"A", true⟩], none, none⟩] ∧
    ([(⟨"A", true⟩ : Choice)].length < 2) := by
  decide

/-- Claim C1 (amended): every multiple-choice card produced by the parser
has at least one choice marked correct and at least **one** choice in total
(a block with no further non-blank line, or with no line marked correct,
yields no card); the two-choice minimum claimed by the specification is not
enforced. -/
theorem mc_card_invariant (source : String) (c : Flashcard) (q : String)
    (ans : List Choice) (hc : c ∈ parseAllCards source)
    (hd : c.data = CardData.multipleChoice q ans) :
    0 < ans.length ∧ ans.any (fun a => a.isCorrect) = true := by
  obtain ⟨lines, hl⟩ := parseAllCards_mem_inv c source hc
  rw [hd] at hl
  exact parseBlockCard_mc_inv _ _ _ hl

/-- Witness for the amended C1 on a two-choice block. -/
theorem mc_card_invariant_witness :
    ((⟨CardData.multipleChoice "Q" [⟨"A", true⟩, ⟨"B", false⟩], none, none⟩ : Flashcard) ∈
        parseAllCards "Q\n=A\nB") ∧
    (0 < [(⟨"A", true⟩ : Choice), ⟨"B", false⟩].length ∧
      [(⟨"A", true⟩ : Choice), ⟨"B", false⟩].any (fun a => a.isCorrect) = true) :=
  ⟨by decide,
    mc_card_invariant "Q\n=A\nB"
      (⟨CardData.multipleChoice "Q" [⟨"A", true⟩, ⟨"B", false⟩], none, none⟩ : Flashcard)
      "Q" [⟨"A", true⟩, ⟨"B", false⟩] (by decide) rfl⟩

/-- Claim C4 counterexample: the line `a {{ }} b` (whitespace-only inner
text) is accepted as a fill-in-the-blank card whose answer is empty after
trimming — the truthiness check only rejects the empty raw capture. -/
theorem fitb_blank_answer_card_exists :
    parseAllCards "a \x7b\x7b \x7d\x7d b" =
      [⟨CardData.fillInTheBlank "a" (some "b") "", none, none⟩] ∧
    ((⟨CardData.fillInTheBlank "a" (some "b") "", none, none⟩ : Flashcard).data =
      CardData.fillInTheBlank "a" (some "b") "") := by
  decide

/-- Claim C4 (amended): the answer of every fill-in-the-blank card is the
trim of a non-empty raw capture; it is therefore non-empty after trimming
unless the captured inner text consists only of whitespace, in which case
the card is still produced with an empty answer. -/
theorem fitb_answer_from_nonempty_capture (source : String) (c : Flashcard)
    (q : String) (p2 : Option String) (a : String)
    (hc : c ∈ parseAllCards source)
    (hd : c.data = CardData.fillInTheBlank q p2 a) :
    ∃ raw, raw ≠ "" ∧ a = jsTrim raw := by
  obtain ⟨lines, hl⟩ := parseAllCards_mem_inv c source hc
  rw [hd] at hl
  exact parseBlockCard_fitb_inv _ _ _ _ hl

/-- Witness for the amended C4 on the specification's own example line. -/
theorem fitb_answer_from_nonempty_capture_witness :
    ((⟨CardData.fillInTheBlank "Humans have" (some "bones in their body") "206",
        none, none⟩ : Flashcard) ∈
      parseAllCards "Humans have \x7b\x7b206\x7d\x7d bones in their body") ∧
    (∃ raw, raw ≠ "" ∧ "206" = jsTrim raw) :=
  ⟨by decide,
    fitb_answer_from_nonempty_capture "Humans have \x7b\x7b206\x7d\x7d bones in their body"
      (⟨CardData.fillInTheBlank "Humans have" (some "bones in their body") "206",
        none, none⟩ : Flashcard)
      "Humans have" (some "bones in their body") "206" (by decide) rfl⟩

/-- The last element of a filtered initial segment of the naturals is the
greatest index satisfying the predicate. -/
lemma getLast?_filter_range (p : Nat → Bool) :
    ∀ (n i : Nat), i < n → p i = true → (∀ k, k < n → i < k → p k = false) →
      ((List.range n).filter p).getLast? = some i := by
  intro n
  induction n with
  | zero => intro i h; omega
  | succ m ih =>
    intro i hin hpi hmax
    rw [List.range_succ, List.filter_append]
    by_cases him : i = m
    · subst him
      have hone : List.filter p [i] = [i] := by simp [hpi]
      rw [hone]
      exact List.getLast?_concat _
    · have hlt : i < m := by omega
      have hpm : p m = false := hmax m (by omega) (by omega)
      have hnil : List.filter p [m] = [] := by simp [hpm]
      rw [hnil, List.append_nil]
      exact ih i hlt hpi (fun k hk hik => hmax k (by omega) hik)

/-- A brace pair at position `i` fits inside the character list. -/
lemma openBraceAt_bound (cs : List Char) (i : Nat) (h : openBraceAt cs i = true) :
    i + 2 ≤ cs.length := by
  unfold openBraceAt at h
  rw [List.isPrefixOf_iff_prefix] at h
  have hlen := h.length_le
  rw [List.length_drop] at hlen
  simp [openBracePat] at hlen
  omega

/-- A closing brace pair at position `j` fits inside the character list. -/
lemma closeBraceAt_bound (cs : List Char) (j : Nat) (h : closeBraceAt cs j = true) :
    j + 2 ≤ cs.length := by
  unfold closeBraceAt at h
  rw [List.isPrefixOf_iff_prefix] at h
  have hlen := h.length_le
  rw [List.length_drop] at hlen
  simp [closeBracePat] at hlen
  omega

/-- Characterization of the greedy regex match: when `i` is the greatest
position of a `\x7b\x7b` still followed by a `\x7d\x7d`, and `j` is the
greatest position of a `\x7d\x7d` (necessarily at or after `i + 2`), the
match returns the text before `i`, the capture between, and the text after
`j + 2`. -/
lemma fitbMatch_eq (line : String) (i j : Nat)
    (hopen : openBraceAt line.data i = true)
    (hclose : closeBraceAt line.data j = true)
    (hij : i + 2 ≤ j)
    (hlastOpen : ∀ i', i' < line.data.length → i < i' → openBraceAt line.data i' = true →
      ∀ j', j' < line.data.length → i' + 2 ≤ j' → closeBraceAt line.data j' = false)
    (hlastClose : ∀ j', j' < line.data.length → j < j' → closeBraceAt line.data j' = false) :
    fitbMatch line = some (String.mk (line.data.take i),
      String.mk ((line.data.drop (i + 2)).take (j - (i + 2))),
      String.mk (line.data.drop (j + 2))) := by
  have hjlen : j + 2 ≤ line.data.length := closeBraceAt_bound _ _ hclose
  have hilen : i + 2 ≤ line.data.length := openBraceAt_bound _ _ hopen
  have hjmem : j ∈ fitbCloses line.data := by
    unfold fitbCloses
    rw [List.mem_filter]
    exact ⟨List.mem_range.mpr (by omega), hclose⟩
  have h1 : ((fitbOpens line.data).filter
      (fun i' => (fitbCloses line.data).any (fun j' => decide (i' + 2 ≤ j')))).getLast? =
        some i := by
    unfold fitbOpens
    rw [List.filter_filter]
    apply getLast?_filter_range
    · omega
    · rw [Bool.and_eq_true]
      refine ⟨?_, hopen⟩
      rw [List.any_eq_true]
      exact ⟨j, hjmem, decide_eq_true hij⟩
    · intro k hk hik
      rcases Bool.eq_false_or_eq_true (openBraceAt line.data k) with hko | hko
      swap
      · rw [Bool.and_eq_false_iff]
        exact Or.inr hko
      · rw [Bool.and_eq_false_iff]
        left
        rw [List.any_eq_false]
        intro j' hj'
        unfold fitbCloses at hj'
        rw [List.mem_filter] at hj'
        have hj'n : j' < line.data.length := List.mem_range.mp hj'.1
        intro hdec
        have hf : closeBraceAt line.data j' = false :=
          hlastOpen k hk hik hko j' hj'n (of_decide_eq_true hdec)
        rw [hj'.2] at hf
        cases hf
  have h2 : ((fitbCloses line.data).filter (fun j' => decide (i + 2 ≤ j'))).getLast? =
      some j := by
    unfold fitbCloses
    rw [List.filter_filter]
    apply getLast?_filter_range
    · omega
    · rw [Bool.and_eq_true]
      exact ⟨decide_eq_true hij, hclose⟩
    · intro k hk hjk
      rw [Bool.and_eq_false_iff]
      exact Or.inr (hlastClose k hk hjk)
  unfold fitbMatch
  rw [h1]
  dsimp only
  rw [h2]

/-- Claim C2 counterexample: on the line `{{a}} {{b}}` (every brace doubled)
the parser extracts answer `b` — the capture starts at the **last** viable
`{{`, not at the first one, which the claim would require to yield
`a}} {{b`. -/
theorem fitb_first_open_counterexample :
    parseAllCards "\x7b\x7ba\x7d\x7d \x7b\x7bb\x7d\x7d" =
      [⟨CardData.fillInTheBlank "\x7b\x7ba\x7d\x7d" none "b", none, none⟩] ∧
    ("b" ≠ "a\x7d\x7d \x7b\x7bb") := by
  decide

/-- Claim C2 (amended): for a block line without a `===` separator, the
fill-in-blank grammar extracts the answer as the span between the **last**
occurrence of `\x7b\x7b` that is still followed by a `\x7d\x7d` and the
last occurrence of `\x7d\x7d` on the line; the question part is the trimmed
text before that opening pair and the optional second part the trimmed text
after that closing pair.  (The hypotheses also record that the line holds
no newline, which is guaranteed by the line splitter.) -/
theorem fitb_extraction_greedy (line : String) (i j : Nat)
    (_hnl : line.data.all (fun c => c ≠ '\n') = true)
    (hnoqa : qaSepLine line = false)
    (hopen : openBraceAt line.data i = true)
    (hclose : closeBraceAt line.data j = true)
    (hij : i + 2 ≤ j)
    (hlastOpen : ∀ i', i' < line.data.length → i < i' → openBraceAt line.data i' = true →
      ∀ j', j' < line.data.length → i' + 2 ≤ j' → closeBraceAt line.data j' = false)
    (hlastClose : ∀ j', j' < line.data.length → j < j' → closeBraceAt line.data j' = false)
    (hinner : String.mk ((line.data.drop (i + 2)).take (j - (i + 2))) ≠ "") :
    parseBlockCard [line] = some (CardData.fillInTheBlank
      (jsTrim (String.mk (line.data.take i)))
      (if jsTrim (String.mk (line.data.drop (j + 2))) = "" then none
        else some (jsTrim (String.mk (line.data.drop (j + 2)))))
      (jsTrim (String.mk ((line.data.drop (i + 2)).take (j - (i + 2)))))) := by
  have hm := fitbMatch_eq line i j hopen hclose hij hlastOpen hlastClose
  have hfind : jsFindIndex qaSepLine [line] = none := by
    simp [jsFindIndex, hnoqa]
  unfold parseBlockCard
  rw [hfind]
  dsimp only [List.headD]
  rw [hm]
  dsimp only
  rw [if_pos hinner]

/-- Witness for the amended C2 on the specification's example line. -/
theorem fitb_extraction_greedy_witness :
    (("Humans have \x7b\x7b206\x7d\x7d bones in their body").data.all
        (fun c => c ≠ '\n') = true) ∧
    (qaSepLine "Humans have \x7b\x7b206\x7d\x7d bones in their body" = false) ∧
    (openBraceAt ("Humans have \x7b\x7b206\x7d\x7d bones in their body").data 12 = true) ∧
    (closeBraceAt ("Humans have \x7b\x7b206\x7d\x7d bones in their body").data 17 = true) ∧
    (parseBlockCard ["Humans have \x7b\x7b206\x7d\x7d bones in their body"] =
      some (CardData.fillInTheBlank "Humans have" (some "bones in their body") "206")) := by
  refine ⟨by decide, by decide, by decide, by decide, ?_⟩
  have h := fitb_extraction_greedy "Humans have \x7b\x7b206\x7d\x7d bones in their body"
    12 17 (by decide) (by decide) (by decide) (by decide) (by decide)
    (by decide) (by decide) (by decide)
  rw [h]
  decide

end Flashy
